import Mathlib

/-!
Verification development for the `s3-manifest` tool (`src/main.rs`), a Rust
program that lists every object under an S3 bucket/prefix and writes a
columnar (Parquet) manifest with one row per object.

Strings are modelled as `List Char`; the S3 `Object` descriptor, the derived
manifest record, the five Arrow column builders, the per-page accumulation
loop of `generate_manifest`, and the `tokio_retry` retry operator are each
embedded as executable Lean definitions translated from the source.
-/

namespace S3Manifest

/-- Strings modelled as lists of characters. -/
abbrev Str := List Char

/-- `rusoto_s3::Object`, the per-object descriptor returned by a listing
page: `key`, `size` (signed 64-bit) and `last_modified` (RFC3339 string)
are all optional. -/
structure S3Object where
  key : Option Str
  size : Option Int
  last_modified : Option Str
deriving DecidableEq

/-- One row of the output manifest: the five column values appended by
`add_object_to_builders` (Bucket, Key, FileName, Size, LastModified). -/
structure ManifestRecord where
  bucket : Str
  key : Str
  file_name : Str
  size : Nat
  last_modified : Int
deriving DecidableEq

/-! ### File-name extraction (`key.rsplit(delimiter).next()`)

Rust's `rsplit` iterates the pieces of `key` separated by the pattern,
starting from the end; its first element is the suffix of `key` that follows
the rightmost match of `delimiter`, or all of `key` when the delimiter does
not match anywhere. `lastMatchFrom` searches downward from `n` for the
greatest position at which `delimiter` matches. -/

/-- Greatest `i ≤ n` such that `delim` matches `key` at position `i`
(i.e. `delim` is a prefix of `key.drop i`), if any. -/
def lastMatchFrom (key delim : Str) : Nat → Option Nat
  | 0 => if delim.isPrefixOf key then some 0 else none
  | n + 1 =>
    if delim.isPrefixOf (key.drop (n + 1)) then some (n + 1)
    else lastMatchFrom key delim n

/-- Greatest position in `key` at which `delim` matches, if any. -/
def lastMatch (key delim : Str) : Option Nat :=
  lastMatchFrom key delim key.length

/-- First element of Rust's `key.rsplit(delim)`: the suffix of `key` after
the rightmost match of `delim`, or `key` itself when `delim` never matches.
This is the `file_name` computed by `add_object_to_builders`. -/
def rsplitFirst (key delim : Str) : Str :=
  match lastMatch key delim with
  | some i => key.drop (i + delim.length)
  | none => key

/-! ### Timestamp parsing

Models `chrono::DateTime::parse_from_rfc3339` followed by
`.with_timezone(&Utc).timestamp_millis()`: parse
`YYYY-MM-DDTHH:MM:SS[.frac](Z|±HH:MM)` (date separator `T`, `t` or space;
fractional digits beyond nanoseconds ignored; second 60 accepted as a leap
second; offsets strictly below 24 h), then convert the parsed instant to
milliseconds since the Unix epoch, UTC. -/

/-- Numeric value of a decimal digit character, if it is one. -/
def digitVal (c : Char) : Option Nat :=
  if '0' ≤ c ∧ c ≤ '9' then some (c.toNat - 48) else none

/-- Parse exactly `width` decimal digits into a number (accumulator `acc`),
returning the value and the remaining input. -/
def parseFixedNat (width : Nat) (acc : Nat) (s : Str) : Option (Nat × Str) :=
  match width with
  | 0 => some (acc, s)
  | w + 1 =>
    match s with
    | [] => none
    | c :: rest =>
      match digitVal c with
      | some d => parseFixedNat w (acc * 10 + d) rest
      | none => none

/-- Consume the expected character `c` from the front of the input. -/
def expectChar (c : Char) (s : Str) : Option Str :=
  match s with
  | [] => none
  | x :: rest => if x = c then some rest else none

/-- Take the leading run of decimal digits, as digit values. -/
def takeDigits : Str → List Nat × Str
  | [] => ([], [])
  | c :: rest =>
    match digitVal c with
    | some d =>
      match takeDigits rest with
      | (ds, r) => (d :: ds, r)
    | none => ([], c :: rest)

/-- Nanoseconds denoted by a fractional-second digit string: the first nine
digits, right-padded with zeros to nine places; further digits are ignored. -/
def nanosOfDigits (ds : List Nat) : Nat :=
  ((ds.take 9).foldl (fun acc d => acc * 10 + d) 0) * 10 ^ (9 - min 9 ds.length)

/-- Proleptic-Gregorian leap-year test. -/
def isLeapYear (y : Nat) : Bool :=
  (y % 4 = 0 ∧ y % 100 ≠ 0) ∨ y % 400 = 0

/-- Number of days in month `m` of year `y` (months numbered from 1). -/
def daysInMonth (y m : Nat) : Nat :=
  if m = 2 then (if isLeapYear y then 29 else 28)
  else if m = 4 ∨ m = 6 ∨ m = 9 ∨ m = 11 then 30
  else 31

/-- Days in the months of year `y` strictly before month `m`. -/
def daysBeforeMonth (y m : Nat) : Nat :=
  ((List.range 13).filter (fun k => 1 ≤ k ∧ k < m)).foldl
    (fun acc k => acc + daysInMonth y k) 0

/-- Number of leap years in `[0, y)` (year 0 is a leap year). -/
def leapsBefore (y : Nat) : Nat :=
  match y with
  | 0 => 0
  | y + 1 => y / 4 - y / 100 + y / 400 + 1

/-- Days from 0000-01-01 to `y`-`m`-`d` in the proleptic Gregorian
calendar. -/
def dateToDays (y m d : Nat) : Nat :=
  365 * y + leapsBefore y + daysBeforeMonth y m + (d - 1)

/-- Days from 0000-01-01 to the Unix epoch 1970-01-01. -/
def epochDays : Nat := 719528

/-- The fields of a parsed RFC3339 timestamp. `nanos` is the fractional
part in nanoseconds (up to `2·10⁹` to represent a leap second);
`offsetSeconds` is the local offset from UTC in seconds (east positive). -/
structure DateTimeFields where
  year : Nat
  month : Nat
  day : Nat
  hour : Nat
  minute : Nat
  second : Nat
  nanos : Nat
  offsetSeconds : Int
deriving DecidableEq

/-- Parse the timezone part: `Z`/`z`, or `±HH:MM` with total magnitude
below 24 hours. Returns the offset in seconds and the remaining input. -/
def parseOffset (s : Str) : Option (Int × Str) :=
  match s with
  | [] => none
  | c :: rest =>
    if c = 'Z' ∨ c = 'z' then some (0, rest)
    else if c = '+' ∨ c = '-' then
      match parseFixedNat 2 0 rest with
      | none => none
      | some (hh, r1) =>
        match expectChar ':' r1 with
        | none => none
        | some r2 =>
          match parseFixedNat 2 0 r2 with
          | none => none
          | some (mm, r3) =>
            let secs : Nat := hh * 3600 + mm * 60
            if secs < 86400 then
              some (if c = '+' then (secs : Int) else -(secs : Int), r3)
            else none
    else none

/-- Parse an optional fractional-second part `.d+` into nanoseconds. -/
def parseFraction (s : Str) : Option (Nat × Str) :=
  match s with
  | '.' :: rest =>
    match takeDigits rest with
    | ([], _) => none
    | (ds, r) => some (nanosOfDigits ds, r)
  | _ => some (0, s)

/-- Parse a full RFC3339 date-time string into its fields, validating
ranges the way chrono does (month 1–12, day within the month, hour ≤ 23,
minute ≤ 59, second ≤ 60 with 60 read as a leap second). The whole input
must be consumed. -/
def parseFields (s : Str) : Option DateTimeFields :=
  match parseFixedNat 4 0 s with
  | none => none
  | some (y, s1) =>
  match expectChar '-' s1 with
  | none => none
  | some s2 =>
  match parseFixedNat 2 0 s2 with
  | none => none
  | some (mo, s3) =>
  match expectChar '-' s3 with
  | none => none
  | some s4 =>
  match parseFixedNat 2 0 s4 with
  | none => none
  | some (d, s5) =>
  match s5 with
  | [] => none
  | sep :: s6 =>
  if ¬ (sep = 'T' ∨ sep = 't' ∨ sep = ' ') then none
  else
  match parseFixedNat 2 0 s6 with
  | none => none
  | some (h, s7) =>
  match expectChar ':' s7 with
  | none => none
  | some s8 =>
  match parseFixedNat 2 0 s8 with
  | none => none
  | some (mi, s9) =>
  match expectChar ':' s9 with
  | none => none
  | some s10 =>
  match parseFixedNat 2 0 s10 with
  | none => none
  | some (sec, s11) =>
  match parseFraction s11 with
  | none => none
  | some (frac, s12) =>
  match parseOffset s12 with
  | none => none
  | some (off, s13) =>
  if s13 = [] ∧ 1 ≤ mo ∧ mo ≤ 12 ∧ 1 ≤ d ∧ d ≤ daysInMonth y mo ∧
     h ≤ 23 ∧ mi ≤ 59 ∧ sec ≤ 60 then
    some { year := y, month := mo, day := d, hour := h, minute := mi,
           second := if sec = 60 then 59 else sec,
           nanos := if sec = 60 then frac + 1000000000 else frac,
           offsetSeconds := off }
  else none

/-- UTC milliseconds since the Unix epoch of a parsed timestamp:
`timestamp() * 1000 + timestamp_subsec_millis()` in chrono terms. -/
def utcMillisOf (f : DateTimeFields) : Int :=
  ((dateToDays f.year f.month f.day : Int) - (epochDays : Int)) * 86400000 +
    ((f.hour * 3600 + f.minute * 60 + f.second : Nat) : Int) * 1000 -
    f.offsetSeconds * 1000 + ((f.nanos / 1000000 : Nat) : Int)

/-- `DateTime::parse_from_rfc3339` composed with
`.with_timezone(&Utc).timestamp_millis()`. -/
def parseRFC3339Millis (s : Str) : Option Int :=
  (parseFields s).map utcMillisOf

/-! ### Record derivation (`add_object_to_builders`) -/

/-- `object.key.as_deref().unwrap_or("")`. -/
def keyOf (o : S3Object) : Str := o.key.getD []

/-- `object.size.unwrap_or(0) as u64`: the `i64` value reinterpreted as an
unsigned 64-bit integer, i.e. reduced modulo `2^64`. -/
def recordedSize (o : S3Object) : Nat :=
  ((o.size.getD 0) % (2 ^ 64 : Int)).toNat

/-- The `LastModified` column value: parse the RFC3339 string if present,
convert the instant to UTC milliseconds, and default to 0 on absence or
parse failure (`.and_then(parse.ok).map(timestamp_millis).unwrap_or(0)`). -/
def lastModifiedOf (o : S3Object) : Int :=
  match o.last_modified with
  | none => 0
  | some s =>
    match parseRFC3339Millis s with
    | none => 0
    | some t => t

/-- Run configuration relevant to record derivation: the source bucket name,
the optional key prefix from the source URI, and the delimiter. -/
structure Config where
  bucket : Str
  pfx : Option Str
  delimiter : Str

/-- The manifest row derived from one object descriptor, made of the five
values appended by `add_object_to_builders`. -/
def toRecord (cfg : Config) (o : S3Object) : ManifestRecord :=
  { bucket := cfg.bucket
    key := keyOf o
    file_name := rsplitFirst (keyOf o) cfg.delimiter
    size := recordedSize o
    last_modified := lastModifiedOf o }

/-- The client-side filter in `generate_manifest`'s listing loop: when a
prefix is configured the object's key (empty when absent) must start with
it, byte-for-byte (`starts_with`); with no prefix every object passes. -/
def acceptedBy (cfg : Config) (o : S3Object) : Bool :=
  match cfg.pfx with
  | none => true
  | some p => p.isPrefixOf (keyOf o)

/-! ### Column builders and the accumulation loop

`generate_manifest` holds five Arrow builders (`bucket_builder`,
`key_builder`, `file_name_builder`, `size_builder`,
`last_modified_builder`). `add_object_to_builders` appends one value to
each; `write_batch` freezes the five columns into a `RecordBatch` and
resets every builder to empty. -/

/-- The five parallel column buffers. -/
structure Builders where
  buckets : List Str
  keys : List Str
  fileNames : List Str
  sizes : List Nat
  lastMods : List Int
deriving DecidableEq

/-- Freshly created builders, all empty. -/
def Builders.empty : Builders := ⟨[], [], [], [], []⟩

/-- `add_object_to_builders`: append the five derived values, one to each
buffer. -/
def addObjectToBuilders (cfg : Config) (o : S3Object) (b : Builders) :
    Builders :=
  { buckets := b.buckets ++ [cfg.bucket]
    keys := b.keys ++ [keyOf o]
    fileNames := b.fileNames ++ [rsplitFirst (keyOf o) cfg.delimiter]
    sizes := b.sizes ++ [recordedSize o]
    lastMods := b.lastMods ++ [lastModifiedOf o] }

/-- One iteration of the inner `for object in objects` loop: the prefix
check (`continue` on failure) followed by `add_object_to_builders`. -/
def addIfAccepted (cfg : Config) (b : Builders) (o : S3Object) : Builders :=
  if acceptedBy cfg o then addObjectToBuilders cfg o b else b

/-- Zip the five column buffers back into rows (the `RecordBatch` built by
`write_batch` from the five finished arrays). -/
def zipRecords : List Str → List Str → List Str → List Nat → List Int →
    List ManifestRecord
  | bu :: bus, k :: ks, f :: fs, sz :: szs, m :: ms =>
    ⟨bu, k, f, sz, m⟩ :: zipRecords bus ks fs szs ms
  | _, _, _, _, _ => []

/-- The rows of the batch that `write_batch` would emit from the current
buffers. -/
def Builders.finish (b : Builders) : List ManifestRecord :=
  zipRecords b.buckets b.keys b.fileNames b.sizes b.lastMods

/-- All five buffers have the same length (the Accumulator invariant). -/
def eqLen (b : Builders) : Prop :=
  b.buckets.length = b.keys.length ∧
  b.fileNames.length = b.keys.length ∧
  b.sizes.length = b.keys.length ∧
  b.lastMods.length = b.keys.length

instance (b : Builders) : Decidable (eqLen b) := by
  unfold eqLen; infer_instance

/-- Pipeline state across listing pages: the live builders and the batches
written so far (each batch as its list of rows, in write order). -/
structure PipeState where
  builders : Builders
  batches : List (List ManifestRecord)

/-- One iteration of `generate_manifest`'s `loop`, given the `contents` of a
successfully fetched page: filter/append every object, then, when
`key_builder.len() >= 1000`, call `write_batch`, which emits all buffered
rows as one batch and resets the five builders. -/
def processPage (cfg : Config) (st : PipeState) (page : List S3Object) :
    PipeState :=
  let b := page.foldl (addIfAccepted cfg) st.builders
  if 1000 ≤ b.keys.length then
    { builders := Builders.empty, batches := st.batches ++ [b.finish] }
  else
    { builders := b, batches := st.batches }

/-- Initial pipeline state. -/
def initState : PipeState := ⟨Builders.empty, []⟩

/-- The batches written by a whole run whose successful listing pages carry
the given object lists, in order: the page loop followed by the final
`if key_builder.len() > 0` flush. -/
def runPipeline (cfg : Config) (pages : List (List S3Object)) :
    List (List ManifestRecord) :=
  let st := pages.foldl (processPage cfg) initState
  if 0 < st.builders.keys.length then st.batches ++ [st.builders.finish]
  else st.batches

/-- All rows of the manifest, in file order. -/
def manifestRows (cfg : Config) (pages : List (List S3Object)) :
    List ManifestRecord :=
  (runPipeline cfg pages).flatten

/-! ### The retry operator

`Retry::spawn(strategy, action)` from `tokio_retry` runs the action once,
and after each failure consumes one element of the backoff-strategy
iterator to run it again; when the iterator is exhausted the last error is
returned. Both call sites build the strategy as
`ExponentialBackoff::from_millis(100).map(jitter).take(3)` — an iterator of
exactly 3 delays. `f i` is the outcome of attempt number `i` (counting from
0); `n` is the number of delays remaining. -/

/-- `Retry::spawn` starting at attempt `i` with `n` strategy elements
left. -/
def retryFrom (f : Nat → Except E A) (i : Nat) : Nat → Except E A
  | 0 =>
    match f i with
    | .ok a => .ok a
    | .error e => .error e
  | n + 1 =>
    match f i with
    | .ok a => .ok a
    | .error _ => retryFrom f (i + 1) n

/-- `Retry::spawn` with a strategy iterator of `n` delays. -/
def retrySpawn (n : Nat) (f : Nat → Except E A) : Except E A :=
  retryFrom f 0 n

/-- Number of attempts `retryFrom` makes. -/
def attemptsFrom (f : Nat → Except E A) (i : Nat) : Nat → Nat
  | 0 => 1
  | n + 1 =>
    match f i with
    | .ok _ => 1
    | .error _ => 1 + attemptsFrom f (i + 1) n

/-- Number of attempts `retrySpawn n f` makes. -/
def attemptsUsed (n : Nat) (f : Nat → Except E A) : Nat :=
  attemptsFrom f 0 n

/-- Fetch every listing page through the retry wrapper: page `j`'s attempt
outcomes are `atts[j]`. The first page whose retries are exhausted aborts
the run with that error (`Retry::spawn(...).await?`). -/
def listAll (atts : List (Nat → Except E (List S3Object))) :
    Except E (List (List S3Object)) :=
  match atts with
  | [] => .ok []
  | a :: rest =>
    match retrySpawn 3 a with
    | .error e => .error e
    | .ok page =>
      match listAll rest with
      | .error e => .error e
      | .ok pages => .ok (page :: pages)

/-- Remote-mode run composed with retries: fetch all pages (each page fetch
retried), then upload through the same retry policy. The second component
counts upload attempts actually made: a run that dies while listing never
attempts the upload, so no manifest — partial or otherwise — is ever put to
the destination. -/
def generateManifestRun (cfg : Config)
    (atts : List (Nat → Except E (List S3Object)))
    (upload : Nat → Except E Unit) :
    Except E (List ManifestRecord) × Nat :=
  match listAll atts with
  | .error e => (.error e, 0)
  | .ok pages =>
    match retrySpawn 3 upload with
    | .error e => (.error e, attemptsUsed 3 upload)
    | .ok _ => (.ok (manifestRows cfg pages), attemptsUsed 3 upload)

/-! ### Remote-mode exit paths and the temporary file

In remote-output mode `generate_manifest` creates a `NamedTempFile` and
every later fallible step propagates its error with `?`. Rust's ownership
rules delete the temp file when its owning binding goes out of scope: on
each early return from `generate_manifest`, and — after the value is moved
into `upload_to_s3` — on each return from `upload_to_s3`, including the
successful one. `remoteModeTrace` replays the remote-mode control flow for
a chosen first failing step (or none), with the implicit drop made an
explicit event. -/

/-- The fallible steps of a remote-mode run, in program order. -/
inductive RemoteStep
  | tempCreate
  | writerReopen
  | writerCreate
  | listing
  | writeBatch
  | close
  | destClient
  | uploadReopen
  | uploadRead
  | uploadPut
deriving DecidableEq

/-- Observable resource events of a remote-mode run. -/
inductive Ev
  | createTemp
  | putManifest
  | dropTemp
deriving DecidableEq

/-- Whether the run is scripted to fail at step `s`. -/
def stepFails (failAt : Option RemoteStep) (s : RemoteStep) : Bool :=
  failAt = some s

/-- The event trace of a remote-mode run whose first failing step is
`failAt` (`none` for a fully successful run), paired with whether the run
succeeded. After `NamedTempFile::new()` succeeds, every return path —
`?`-propagation from `generate_manifest` or from `upload_to_s3`, and the
successful completion of `upload_to_s3` — ends the owning scope and so
drops (deletes) the temp file. -/
def remoteModeTrace (failAt : Option RemoteStep) : List Ev × Bool :=
  if stepFails failAt .tempCreate then ([], false)
  else if stepFails failAt .writerReopen then ([.createTemp, .dropTemp], false)
  else if stepFails failAt .writerCreate then ([.createTemp, .dropTemp], false)
  else if stepFails failAt .listing then ([.createTemp, .dropTemp], false)
  else if stepFails failAt .writeBatch then ([.createTemp, .dropTemp], false)
  else if stepFails failAt .close then ([.createTemp, .dropTemp], false)
  else if stepFails failAt .destClient then ([.createTemp, .dropTemp], false)
  else if stepFails failAt .uploadReopen then ([.createTemp, .dropTemp], false)
  else if stepFails failAt .uploadRead then ([.createTemp, .dropTemp], false)
  else if stepFails failAt .uploadPut then ([.createTemp, .dropTemp], false)
  else ([.createTemp, .putManifest, .dropTemp], true)

/-! ## Properties of file-name extraction -/

/-- `delim` matches `key` at position `i`. -/
def occursAt (key delim : Str) (i : Nat) : Prop :=
  i ≤ key.length ∧ delim <+: key.drop i

instance (key delim : Str) (i : Nat) : Decidable (occursAt key delim i) := by
  unfold occursAt; infer_instance

theorem lastMatchFrom_some (key delim : Str) :
    ∀ n i, lastMatchFrom key delim n = some i →
      delim <+: key.drop i ∧ i ≤ n ∧
      ∀ j, i < j → j ≤ n → ¬ delim <+: key.drop j := by
  intro n
  induction n with
  | zero =>
    intro i h
    unfold lastMatchFrom at h
    by_cases hp : delim.isPrefixOf key
    · simp only [hp, if_true] at h
      cases h
      exact ⟨by simpa using List.isPrefixOf_iff_prefix.mp hp, Nat.le_refl 0,
        fun j h1 h2 => absurd (Nat.lt_of_lt_of_le h1 h2) (Nat.lt_irrefl 0)⟩
    · simp [hp] at h
  | succ n ih =>
    intro i h
    unfold lastMatchFrom at h
    by_cases hp : delim.isPrefixOf (key.drop (n + 1))
    · simp only [hp, if_true] at h
      cases h
      exact ⟨List.isPrefixOf_iff_prefix.mp hp, Nat.le_refl _,
        fun j h1 h2 => absurd (Nat.lt_of_lt_of_le h1 h2) (Nat.lt_irrefl _)⟩
    · simp only [hp, if_false] at h
      obtain ⟨h1, h2, h3⟩ := ih i h
      refine ⟨h1, Nat.le_succ_of_le h2, ?_⟩
      intro j hj1 hj2
      rcases Nat.lt_or_ge j (n + 1) with hlt | hge
      · exact h3 j hj1 (by omega)
      · have hj : j = n + 1 := by omega
        subst hj
        intro hc
        exact hp (List.isPrefixOf_iff_prefix.mpr hc)

theorem lastMatchFrom_none (key delim : Str) :
    ∀ n, lastMatchFrom key delim n = none →
      ∀ j, j ≤ n → ¬ delim <+: key.drop j := by
  intro n
  induction n with
  | zero =>
    intro h j hj
    unfold lastMatchFrom at h
    by_cases hp : delim.isPrefixOf key
    · simp [hp] at h
    · have hj0 : j = 0 := Nat.le_zero.mp hj
      subst hj0
      intro hc
      exact hp (List.isPrefixOf_iff_prefix.mpr (by simpa using hc))
  | succ n ih =>
    intro h j hj
    unfold lastMatchFrom at h
    by_cases hp : delim.isPrefixOf (key.drop (n + 1))
    · simp [hp] at h
    · simp only [hp, if_false] at h
      rcases Nat.lt_or_ge j (n + 1) with hlt | hge
      · exact ih h j (by omega)
      · have hj1 : j = n + 1 := by omega
        subst hj1
        intro hc
        exact hp (List.isPrefixOf_iff_prefix.mpr hc)

/-- C3: for every key and configured delimiter, the derived `file_name` is
the substring of the key after the last (literal) occurrence of the
delimiter, and is the full key when the delimiter does not occur; in
particular key `a/b/c.txt` with delimiter `/` gives `c.txt` and key
`readme.md` gives `readme.md`. -/
theorem fileName_last_delimiter (key delim : Str) (i : Nat) :
    (occursAt key delim i → (∀ j, j ≤ key.length → occursAt key delim j → j ≤ i) →
       rsplitFirst key delim = key.drop (i + delim.length)) ∧
    ((∀ j, j ≤ key.length → ¬ occursAt key delim j) → rsplitFirst key delim = key) ∧
    rsplitFirst "a/b/c.txt".toList "/".toList = "c.txt".toList ∧
    rsplitFirst "readme.md".toList "/".toList = "readme.md".toList := by
  refine ⟨?_, ?_, by decide, by decide⟩
  · intro hi hmax
    unfold rsplitFirst lastMatch
    cases h : lastMatchFrom key delim key.length with
    | none =>
      exact absurd hi.2 (lastMatchFrom_none key delim key.length h i hi.1)
    | some k =>
      obtain ⟨h1, h2, h3⟩ := lastMatchFrom_some key delim key.length k h
      have hik : i ≤ k := by
        by_contra hc
        exact h3 i (by omega) hi.1 hi.2
      have hki : k ≤ i := hmax k h2 ⟨h2, h1⟩
      have hik2 : i = k := Nat.le_antisymm hik hki
      subst hik2
      rfl
  · intro hnone
    unfold rsplitFirst lastMatch
    cases h : lastMatchFrom key delim key.length with
    | none => rfl
    | some k =>
      obtain ⟨h1, h2, _⟩ := lastMatchFrom_some key delim key.length k h
      exact absurd ⟨h2, h1⟩ (hnone k h2)

/-- Witness for C3 at key `a/b/c.txt`, delimiter `/`, last occurrence 3. -/
theorem fileName_last_delimiter_witness :
    rsplitFirst "a/b/c.txt".toList "/".toList = "c.txt".toList := by
  have h := (fileName_last_delimiter "a/b/c.txt".toList "/".toList 3).1
    (by decide) (by decide)
  rw [h]
  decide

/-! ## Properties of the timestamp column -/

/-- C4: the `LastModified` value of a descriptor whose RFC3339 string
parses is exactly the parsed instant in UTC milliseconds since epoch; a
missing or unparseable timestamp yields 0. -/
theorem lastModified_rfc3339 (o : S3Object) :
    (∀ s f, o.last_modified = some s → parseFields s = some f →
       lastModifiedOf o = utcMillisOf f) ∧
    (∀ s, o.last_modified = some s → parseFields s = none →
       lastModifiedOf o = 0) ∧
    (o.last_modified = none → lastModifiedOf o = 0) := by
  refine ⟨?_, ?_, ?_⟩
  · intro s f hs hf
    simp [lastModifiedOf, hs, parseRFC3339Millis, hf]
  · intro s hs hf
    simp [lastModifiedOf, hs, parseRFC3339Millis, hf]
  · intro h
    simp [lastModifiedOf, h]

/-- Witness for C4: `2024-01-01T00:00:00Z` parses and converts to
1704067200000 ms. -/
theorem lastModified_rfc3339_witness :
    lastModifiedOf ⟨none, none, some "2024-01-01T00:00:00Z".toList⟩ =
      1704067200000 := by
  have h := (lastModified_rfc3339
      ⟨none, none, some "2024-01-01T00:00:00Z".toList⟩).1
    "2024-01-01T00:00:00Z".toList ⟨2024, 1, 1, 0, 0, 0, 0, 0⟩ rfl (by decide)
  rw [h]
  decide

/-! ## Properties of the size column -/

/-- C9: a present negative size (the S3 API reports `i64`) is recorded as
its two's-complement reinterpretation modulo `2^64` — `-1` becomes
`18446744073709551615` — never clamped to 0; an absent size is recorded
as 0. -/
theorem negative_size_wraps (o : S3Object) (s : Int) :
    (o.size = some s → -(2 ^ 63) ≤ s → s < 0 →
       recordedSize o = (s + 2 ^ 64).toNat ∧ recordedSize o ≠ 0) ∧
    (o.size = some (-1) → recordedSize o = 18446744073709551615) ∧
    (o.size = none → recordedSize o = 0) := by
  refine ⟨?_, ?_, ?_⟩
  · intro hs h1 h2
    have hM : (2 : Int) ^ 64 = 18446744073709551616 := by norm_num
    have h63 : (2 : Int) ^ 63 = 9223372036854775808 := by norm_num
    rw [h63] at h1
    simp only [recordedSize, hs, Option.getD_some, hM]
    refine ⟨?_, ?_⟩ <;> omega
  · intro hs
    simp only [recordedSize, hs, Option.getD_some]
    decide
  · intro hs
    simp only [recordedSize, hs, Option.getD_none]
    decide

/-- Witness for C9 at size `-1`. -/
theorem negative_size_wraps_witness :
    recordedSize ⟨none, some (-1), none⟩ = 18446744073709551615 :=
  (negative_size_wraps ⟨none, some (-1), none⟩ (-1)).2.1 rfl

/-! ## Accumulator lemmas -/

theorem eqLen_empty : eqLen Builders.empty := by
  simp [eqLen, Builders.empty]

theorem eqLen_add (cfg : Config) (o : S3Object) (b : Builders) (h : eqLen b) :
    eqLen (addObjectToBuilders cfg o b) := by
  obtain ⟨h1, h2, h3, h4⟩ := h
  simp [eqLen, addObjectToBuilders, h1, h2, h3, h4]

theorem eqLen_addIf (cfg : Config) (b : Builders) (o : S3Object)
    (h : eqLen b) : eqLen (addIfAccepted cfg b o) := by
  unfold addIfAccepted
  by_cases hc : acceptedBy cfg o
  · simpa [hc] using eqLen_add cfg o b h
  · simpa [hc] using h

theorem eqLen_fold (cfg : Config) (page : List S3Object) :
    ∀ b, eqLen b → eqLen (page.foldl (addIfAccepted cfg) b) := by
  induction page with
  | nil => intro b h; exact h
  | cons o rest ih => intro b h; exact ih _ (eqLen_addIf cfg b o h)

theorem keys_len_fold (cfg : Config) (page : List S3Object) :
    ∀ b, (page.foldl (addIfAccepted cfg) b).keys.length =
      b.keys.length + (page.filter (acceptedBy cfg)).length := by
  induction page with
  | nil => intro b; simp
  | cons o rest ih =>
    intro b
    by_cases hc : acceptedBy cfg o
    · rw [List.foldl_cons]
      rw [show addIfAccepted cfg b o = addObjectToBuilders cfg o b by
        simp [addIfAccepted, hc]]
      rw [ih]
      simp [addObjectToBuilders, List.filter_cons, hc]
      omega
    · rw [List.foldl_cons]
      rw [show addIfAccepted cfg b o = b by simp [addIfAccepted, hc]]
      rw [ih]
      simp [List.filter_cons, hc]

theorem zipRecords_append :
    ∀ (as bs cs : List Str) (ds : List Nat) (es : List Int)
      (a b c : Str) (d : Nat) (e : Int),
      as.length = bs.length → cs.length = bs.length →
      ds.length = bs.length → es.length = bs.length →
      zipRecords (as ++ [a]) (bs ++ [b]) (cs ++ [c]) (ds ++ [d]) (es ++ [e]) =
        zipRecords as bs cs ds es ++ [⟨a, b, c, d, e⟩] := by
  intro as
  induction as with
  | nil =>
    intro bs cs ds es a b c d e h1 h2 h3 h4
    simp only [List.length_nil] at h1 h2 h3 h4
    have hb : bs = [] := List.length_eq_zero.mp (by omega)
    subst hb
    have hc : cs = [] := List.length_eq_zero.mp (by omega)
    subst hc
    have hd : ds = [] := List.length_eq_zero.mp (by omega)
    subst hd
    have he : es = [] := List.length_eq_zero.mp (by omega)
    subst he
    simp [zipRecords]
  | cons a0 as ih =>
    intro bs cs ds es a b c d e h1 h2 h3 h4
    cases bs with
    | nil => simp at h1
    | cons b0 bs =>
      cases cs with
      | nil => simp at h2
      | cons c0 cs =>
        cases ds with
        | nil => simp at h3
        | cons d0 ds =>
          cases es with
          | nil => simp at h4
          | cons e0 es =>
            simp only [List.length_cons] at h1 h2 h3 h4
            simp only [List.cons_append, zipRecords]
            exact congrArg (List.cons _)
              (ih bs cs ds es a b c d e (by omega) (by omega) (by omega)
                (by omega))

theorem zipRecords_length :
    ∀ (as bs cs : List Str) (ds : List Nat) (es : List Int),
      as.length = bs.length → cs.length = bs.length →
      ds.length = bs.length → es.length = bs.length →
      (zipRecords as bs cs ds es).length = bs.length := by
  intro as
  induction as with
  | nil =>
    intro bs cs ds es h1 _ _ _
    simp only [List.length_nil] at h1
    have hb : bs = [] := List.length_eq_zero.mp (by omega)
    subst hb
    simp [zipRecords]
  | cons a0 as ih =>
    intro bs cs ds es h1 h2 h3 h4
    cases bs with
    | nil => simp at h1
    | cons b0 bs =>
      cases cs with
      | nil => simp at h2
      | cons c0 cs =>
        cases ds with
        | nil => simp at h3
        | cons d0 ds =>
          cases es with
          | nil => simp at h4
          | cons e0 es =>
            simp only [List.length_cons] at h1 h2 h3 h4
            simp only [zipRecords, List.length_cons]
            rw [ih bs cs ds es (by omega) (by omega) (by omega) (by omega)]

theorem finish_length (b : Builders) (h : eqLen b) :
    b.finish.length = b.keys.length := by
  obtain ⟨h1, h2, h3, h4⟩ := h
  exact zipRecords_length b.buckets b.keys b.fileNames b.sizes b.lastMods
    h1 h2 h3 h4

theorem finish_empty : Builders.empty.finish = [] := rfl

theorem finish_add (cfg : Config) (o : S3Object) (b : Builders)
    (h : eqLen b) :
    (addObjectToBuilders cfg o b).finish = b.finish ++ [toRecord cfg o] := by
  obtain ⟨h1, h2, h3, h4⟩ := h
  exact zipRecords_append b.buckets b.keys b.fileNames b.sizes b.lastMods
    cfg.bucket (keyOf o) (rsplitFirst (keyOf o) cfg.delimiter)
    (recordedSize o) (lastModifiedOf o) h1 h2 h3 h4

theorem finish_fold (cfg : Config) (page : List S3Object) :
    ∀ b, eqLen b → (page.foldl (addIfAccepted cfg) b).finish =
      b.finish ++ ((page.filter (acceptedBy cfg)).map (toRecord cfg)) := by
  induction page with
  | nil => intro b _; simp
  | cons o rest ih =>
    intro b h
    by_cases hc : acceptedBy cfg o
    · rw [List.foldl_cons]
      rw [show addIfAccepted cfg b o = addObjectToBuilders cfg o b by
        simp [addIfAccepted, hc]]
      rw [ih _ (eqLen_add cfg o b h)]
      rw [finish_add cfg o b h]
      simp [List.filter_cons, hc]
    · rw [List.foldl_cons]
      rw [show addIfAccepted cfg b o = b by simp [addIfAccepted, hc]]
      rw [ih _ h]
      simp [List.filter_cons, hc]

/-! ## Pipeline lemmas -/

theorem processPage_inv (cfg : Config) (st : PipeState)
    (page : List S3Object) (h : eqLen st.builders) :
    eqLen (processPage cfg st page).builders := by
  unfold processPage
  by_cases hlen : 1000 ≤ (page.foldl (addIfAccepted cfg) st.builders).keys.length
  · simpa [hlen] using eqLen_empty
  · simpa [hlen] using eqLen_fold cfg page st.builders h

theorem processPage_rows (cfg : Config) (st : PipeState)
    (page : List S3Object) (h : eqLen st.builders) :
    (processPage cfg st page).batches.flatten ++
        (processPage cfg st page).builders.finish =
      st.batches.flatten ++ st.builders.finish ++
        ((page.filter (acceptedBy cfg)).map (toRecord cfg)) := by
  unfold processPage
  by_cases hlen : 1000 ≤ (page.foldl (addIfAccepted cfg) st.builders).keys.length
  · simp only [hlen, if_true]
    rw [List.flatten_append]
    simp only [List.flatten_cons, List.flatten_nil, List.append_nil,
      finish_empty]
    rw [finish_fold cfg page st.builders h]
    simp [List.append_assoc]
  · simp only [hlen, if_false]
    rw [finish_fold cfg page st.builders h]
    simp [List.append_assoc]

theorem foldl_inv (cfg : Config) (pages : List (List S3Object)) :
    ∀ st, eqLen st.builders →
      eqLen ((pages.foldl (processPage cfg) st).builders) := by
  induction pages with
  | nil => intro st h; exact h
  | cons p rest ih =>
    intro st h
    exact ih _ (processPage_inv cfg st p h)

theorem foldl_rows (cfg : Config) (pages : List (List S3Object)) :
    ∀ st, eqLen st.builders →
      (pages.foldl (processPage cfg) st).batches.flatten ++
          (pages.foldl (processPage cfg) st).builders.finish =
        st.batches.flatten ++ st.builders.finish ++
          ((pages.flatten.filter (acceptedBy cfg)).map (toRecord cfg)) := by
  induction pages with
  | nil => intro st _; simp
  | cons p rest ih =>
    intro st h
    rw [List.foldl_cons]
    rw [ih _ (processPage_inv cfg st p h)]
    rw [processPage_rows cfg st p h]
    simp [List.filter_append, List.append_assoc]

/-- Master shape of the output: the rows of the manifest are exactly the
accepted objects of all pages, in order, each mapped to its derived
record. -/
theorem manifestRows_eq (cfg : Config) (pages : List (List S3Object)) :
    manifestRows cfg pages =
      ((pages.flatten).filter (acceptedBy cfg)).map (toRecord cfg) := by
  unfold manifestRows runPipeline
  have hinv : eqLen ((pages.foldl (processPage cfg) initState).builders) :=
    foldl_inv cfg pages initState eqLen_empty
  have hrows := foldl_rows cfg pages initState eqLen_empty
  simp only [show initState.batches = [] from rfl,
    show initState.builders = Builders.empty from rfl, List.flatten_nil,
    finish_empty, List.nil_append, List.append_nil] at hrows
  by_cases h : 0 < (pages.foldl (processPage cfg) initState).builders.keys.length
  · simp only [h, if_true]
    rw [List.flatten_append]
    simpa using hrows
  · simp only [h, if_false]
    have hz : (pages.foldl (processPage cfg) initState).builders.keys.length
        = 0 := by omega
    have hfin : (pages.foldl (processPage cfg) initState).builders.finish
        = [] := by
      have := finish_length _ hinv
      rw [hz] at this
      exact List.length_eq_zero.mp this
    rw [hfin, List.append_nil] at hrows
    exact hrows

/-- `rsplitFirst` on the empty key is empty, whatever the delimiter. -/
theorem rsplitFirst_nil (d : Str) : rsplitFirst [] d = [] := by
  cases d with
  | nil => rfl
  | cons c cs => rfl

/-- C5: when a key prefix is configured, the manifest rows are exactly the
records of the objects whose keys literally start with it — so every row's
key carries the prefix, and an object returned by a listing page whose key
does not start with it is dropped before accumulation and never
represented in the output. -/
theorem pfxFiltered (cfg : Config) (p : Str) (pages : List (List S3Object))
    (hp : cfg.pfx = some p) :
    manifestRows cfg pages =
      ((pages.flatten).filter (fun o => p.isPrefixOf (keyOf o))).map
        (toRecord cfg) ∧
    ∀ r ∈ manifestRows cfg pages, p.isPrefixOf r.key := by
  have hacc : acceptedBy cfg = fun o => p.isPrefixOf (keyOf o) := by
    funext o
    simp [acceptedBy, hp]
  constructor
  · rw [manifestRows_eq, hacc]
  · intro r hr
    rw [manifestRows_eq] at hr
    obtain ⟨o, ho, rfl⟩ := List.mem_map.mp hr
    have hmem := List.of_mem_filter ho
    rw [hacc] at hmem
    simpa [toRecord] using hmem

/-- Witness for C5: the row for key `y/b` (outside prefix `x/`) is absent. -/
theorem pfxFiltered_witness :
    manifestRows ⟨"b".toList, some "x/".toList, "/".toList⟩
      [[⟨some "x/a".toList, none, none⟩, ⟨some "y/b".toList, none, none⟩]] =
      [toRecord ⟨"b".toList, some "x/".toList, "/".toList⟩
        ⟨some "x/a".toList, none, none⟩] := by
  rw [(pfxFiltered ⟨"b".toList, some "x/".toList, "/".toList⟩ "x/".toList
    [[⟨some "x/a".toList, none, none⟩, ⟨some "y/b".toList, none, none⟩]]
    rfl).1]
  decide

/-- C6: the five column buffers stay in lock-step — appending a record adds
exactly one value to each buffer and preserves equal lengths, the reset
state after a flush has all five buffers at length zero, and every state
reachable by processing listing pages has all five buffers of equal
length. -/
theorem buffers_eqLen (cfg : Config) (o : S3Object) (b : Builders)
    (pages : List (List S3Object)) (h : eqLen b) :
    ((addObjectToBuilders cfg o b).buckets.length = b.buckets.length + 1 ∧
     (addObjectToBuilders cfg o b).keys.length = b.keys.length + 1 ∧
     (addObjectToBuilders cfg o b).fileNames.length =
       b.fileNames.length + 1 ∧
     (addObjectToBuilders cfg o b).sizes.length = b.sizes.length + 1 ∧
     (addObjectToBuilders cfg o b).lastMods.length =
       b.lastMods.length + 1) ∧
    eqLen (addObjectToBuilders cfg o b) ∧
    (Builders.empty.buckets.length = 0 ∧ Builders.empty.keys.length = 0 ∧
     Builders.empty.fileNames.length = 0 ∧
     Builders.empty.sizes.length = 0 ∧
     Builders.empty.lastMods.length = 0) ∧
    eqLen ((pages.foldl (processPage cfg) initState).builders) := by
  refine ⟨?_, eqLen_add cfg o b h, ⟨rfl, rfl, rfl, rfl, rfl⟩,
    foldl_inv cfg pages initState eqLen_empty⟩
  simp [addObjectToBuilders]

/-- Witness for C6 at one concrete append. -/
theorem buffers_eqLen_witness :
    eqLen (addObjectToBuilders ⟨[], none, []⟩ ⟨none, none, none⟩
      Builders.empty) :=
  (buffers_eqLen ⟨[], none, []⟩ ⟨none, none, none⟩ Builders.empty []
    eqLen_empty).2.1

/-- C7: the end-to-end scenario — bucket `b`, prefix `logs/`, delimiter
`/`, one page with the two objects — produces exactly the two expected
rows in order. -/
theorem end_to_end_example :
    manifestRows ⟨"b".toList, some "logs/".toList, "/".toList⟩
      [[⟨some "logs/2024/a.log".toList, some 10,
          some "2024-01-01T00:00:00Z".toList⟩,
        ⟨some "logs/2024/b.log".toList, some 20, none⟩]] =
      [⟨"b".toList, "logs/2024/a.log".toList, "a.log".toList, 10,
          1704067200000⟩,
       ⟨"b".toList, "logs/2024/b.log".toList, "b.log".toList, 20, 0⟩] := by
  decide

/-- C10: a descriptor with an absent key is treated as having the empty
key: with a configured (non-empty) prefix it is silently dropped; with no
prefix a record is still appended, with empty key and empty file name. -/
theorem absent_key_behavior (cfg : Config) (o : S3Object) (p : Str)
    (hk : o.key = none) :
    (cfg.pfx = some p → p ≠ [] → acceptedBy cfg o = false ∧
       manifestRows cfg [[o]] = []) ∧
    (cfg.pfx = none → acceptedBy cfg o = true ∧
       manifestRows cfg [[o]] = [toRecord cfg o] ∧
       (toRecord cfg o).key = [] ∧ (toRecord cfg o).file_name = []) := by
  have hko : keyOf o = [] := by simp [keyOf, hk]
  constructor
  · intro hp hne
    have hacc : acceptedBy cfg o = false := by
      simp only [acceptedBy, hp, hko]
      cases p with
      | nil => exact absurd rfl hne
      | cons c cs => rfl
    refine ⟨hacc, ?_⟩
    rw [manifestRows_eq]
    simp [hacc]
  · intro hp
    have hacc : acceptedBy cfg o = true := by
      simp [acceptedBy, hp]
    refine ⟨hacc, ?_, ?_, ?_⟩
    · rw [manifestRows_eq]
      simp [hacc]
    · simp [toRecord, hko]
    · simp [toRecord, hko, rsplitFirst_nil]

/-- Witness for C10: an absent key under configured prefix `x` yields no
row. -/
theorem absent_key_behavior_witness :
    manifestRows ⟨"b".toList, some "x".toList, "/".toList⟩
      [[⟨none, none, none⟩]] = [] :=
  ((absent_key_behavior ⟨"b".toList, some "x".toList, "/".toList⟩
      ⟨none, none, none⟩ "x".toList rfl).1 rfl (by decide)).2

/-! ## Batching lemmas -/

theorem processPage_empty_builders (cfg : Config)
    (bs : List (List ManifestRecord)) (page : List S3Object) :
    processPage cfg ⟨Builders.empty, bs⟩ page =
      if 1000 ≤ (page.filter (acceptedBy cfg)).length then
        ⟨Builders.empty,
         bs ++ [(page.filter (acceptedBy cfg)).map (toRecord cfg)]⟩
      else ⟨page.foldl (addIfAccepted cfg) Builders.empty, bs⟩ := by
  have hlen : (page.foldl (addIfAccepted cfg) Builders.empty).keys.length =
      (page.filter (acceptedBy cfg)).length := by
    rw [keys_len_fold]
    simp [Builders.empty]
  have hfin : (page.foldl (addIfAccepted cfg) Builders.empty).finish =
      (page.filter (acceptedBy cfg)).map (toRecord cfg) := by
    rw [finish_fold cfg page Builders.empty eqLen_empty, finish_empty]
    simp
  simp only [processPage]
  rw [hlen, hfin]

theorem fulls_fold (cfg : Config) (fulls : List (List S3Object))
    (hf : ∀ p ∈ fulls, (p.filter (acceptedBy cfg)).length = 1000) :
    ∀ bs, fulls.foldl (processPage cfg) ⟨Builders.empty, bs⟩ =
      ⟨Builders.empty,
       bs ++ fulls.map
         (fun p => (p.filter (acceptedBy cfg)).map (toRecord cfg))⟩ := by
  induction fulls with
  | nil => intro bs; simp
  | cons p rest ih =>
    intro bs
    rw [List.foldl_cons, processPage_empty_builders,
      if_pos (by rw [hf p (List.mem_cons_self p rest)]),
      ih (fun q hq => hf q (List.mem_cons_of_mem p hq))]
    simp

/-- Helper for the C1 counterexample: a page of 999 accepted objects
followed by a page of 2 accepted objects yields one single batch of 1001
records. -/
theorem two_page_single_batch (cfg : Config) (p1 p2 : List S3Object)
    (h1 : (p1.filter (acceptedBy cfg)).length = 999)
    (h2 : (p2.filter (acceptedBy cfg)).length = 2) :
    (runPipeline cfg [p1, p2]).map List.length = [1001] := by
  have hb1len : (p1.foldl (addIfAccepted cfg) Builders.empty).keys.length
      = 999 := by
    rw [keys_len_fold, h1]
    simp [Builders.empty]
  have hb1eq : eqLen (p1.foldl (addIfAccepted cfg) Builders.empty) :=
    eqLen_fold cfg p1 Builders.empty eqLen_empty
  have hb2len : (p2.foldl (addIfAccepted cfg)
      (p1.foldl (addIfAccepted cfg) Builders.empty)).keys.length = 1001 := by
    rw [keys_len_fold, hb1len, h2]
  have hb2eq : eqLen (p2.foldl (addIfAccepted cfg)
      (p1.foldl (addIfAccepted cfg) Builders.empty)) :=
    eqLen_fold cfg p2 _ hb1eq
  have hstep1 : processPage cfg initState p1 =
      ⟨p1.foldl (addIfAccepted cfg) Builders.empty, []⟩ := by
    simp only [processPage]
    rw [show initState.builders = Builders.empty from rfl]
    rw [if_neg (by rw [hb1len]; omega)]
    rfl
  have hstep2 : processPage cfg
      ⟨p1.foldl (addIfAccepted cfg) Builders.empty, []⟩ p2 =
      ⟨Builders.empty,
       [(p2.foldl (addIfAccepted cfg)
          (p1.foldl (addIfAccepted cfg) Builders.empty)).finish]⟩ := by
    simp only [processPage]
    rw [if_pos (by rw [hb2len]; omega)]
    rfl
  simp only [runPipeline, List.foldl_cons, List.foldl_nil, hstep1, hstep2]
  rw [if_neg (by simp [Builders.empty])]
  rw [List.map_cons, List.map_nil, finish_length _ hb2eq, hb2len]

/-- C1 counterexample: with a page of 999 accepted objects followed by a
page of 2 (N = 1001 in total), the run writes ONE batch, of 1001 records —
not ceil(1001/1000) = 2 batches of sizes 1000 and 1 as claimed. The whole
buffer is flushed only at page boundaries where it has reached 1000, so a
batch can exceed 1000 records. -/
theorem batching_counterexample :
    (runPipeline ⟨[], none, []⟩
        [List.replicate 999 ⟨none, none, none⟩,
         List.replicate 2 ⟨none, none, none⟩]).map List.length = [1001] ∧
    (1001 + 999) / 1000 = 2 := by
  refine ⟨?_, by norm_num⟩
  have hacc : ∀ l : List S3Object,
      List.filter (acceptedBy ⟨[], none, []⟩) l = l :=
    fun l => List.filter_eq_self.mpr (fun x _ => rfl)
  refine two_page_single_batch ⟨[], none, []⟩ _ _ ?_ ?_ <;>
    rw [hacc, List.length_replicate]

/-- C1 amended: `write_batch` is called once per listing page and flushes
the whole buffer, so the claimed batch shape holds exactly for runs where
every page but possibly the last contributes exactly 1000 accepted
objects (as when a conformant backend fills every page and no object is
filtered): then the number of written batches is ceil(N/1000), every
batch except possibly the last holds exactly 1000 records, and when
N mod 1000 ≠ 0 the final batch holds N mod 1000 records. In general a
batch can exceed 1000 records (see the counterexample). -/
theorem batching_amended (cfg : Config) (fulls : List (List S3Object))
    (lastPage : List S3Object)
    (hf : ∀ p ∈ fulls, (p.filter (acceptedBy cfg)).length = 1000)
    (hl : (lastPage.filter (acceptedBy cfg)).length ≤ 1000) :
    (runPipeline cfg (fulls ++ [lastPage])).map List.length =
      List.replicate fulls.length 1000 ++
        (if (lastPage.filter (acceptedBy cfg)).length = 0 then []
         else [(lastPage.filter (acceptedBy cfg)).length]) ∧
    (runPipeline cfg (fulls ++ [lastPage])).length =
      (1000 * fulls.length + (lastPage.filter (acceptedBy cfg)).length +
        999) / 1000 ∧
    (∀ l ∈ (runPipeline cfg (fulls ++ [lastPage])).dropLast,
       l.length = 1000) ∧
    ((1000 * fulls.length + (lastPage.filter (acceptedBy cfg)).length) %
         1000 ≠ 0 →
       ((runPipeline cfg (fulls ++ [lastPage])).getLast?).map List.length =
         some ((1000 * fulls.length +
           (lastPage.filter (acceptedBy cfg)).length) % 1000)) := by
  have hBSlen : ((fulls.map
      (fun p => (p.filter (acceptedBy cfg)).map (toRecord cfg))).map
        List.length) = List.replicate fulls.length 1000 := by
    rw [List.map_map]
    refine List.eq_replicate_iff.mpr ⟨by simp, ?_⟩
    intro b hb
    obtain ⟨p, hp, rfl⟩ := List.mem_map.mp hb
    simp [Function.comp, hf p hp]
  have hfold : (fulls ++ [lastPage]).foldl (processPage cfg) initState =
      processPage cfg
        ⟨Builders.empty, fulls.map
          (fun p => (p.filter (acceptedBy cfg)).map (toRecord cfg))⟩
        lastPage := by
    rw [List.foldl_append,
      show (initState : PipeState) = ⟨Builders.empty, []⟩ from rfl,
      fulls_fold cfg fulls hf [], List.nil_append, List.foldl_cons,
      List.foldl_nil]
  have hE : (runPipeline cfg (fulls ++ [lastPage])).map List.length =
      List.replicate fulls.length 1000 ++
        (if (lastPage.filter (acceptedBy cfg)).length = 0 then []
         else [(lastPage.filter (acceptedBy cfg)).length]) := by
    rcases Nat.lt_or_ge (lastPage.filter (acceptedBy cfg)).length 1000
      with hlt | hge
    · -- the last page does not fill the buffer: no in-loop flush
      have hstB : processPage cfg
          ⟨Builders.empty, fulls.map
            (fun p => (p.filter (acceptedBy cfg)).map (toRecord cfg))⟩
          lastPage =
          ⟨lastPage.foldl (addIfAccepted cfg) Builders.empty,
           fulls.map
             (fun p => (p.filter (acceptedBy cfg)).map (toRecord cfg))⟩ := by
        rw [processPage_empty_builders, if_neg (by omega)]
      have hblen : (lastPage.foldl (addIfAccepted cfg)
          Builders.empty).keys.length =
          (lastPage.filter (acceptedBy cfg)).length := by
        rw [keys_len_fold]
        simp [Builders.empty]
      simp only [runPipeline, hfold, hstB]
      rcases Nat.eq_zero_or_pos (lastPage.filter (acceptedBy cfg)).length
        with h0 | hpos
      · rw [if_neg (by rw [hblen]; omega), if_pos h0, List.append_nil]
        exact hBSlen
      · rw [if_pos (by rw [hblen]; omega), if_neg (by omega)]
        rw [List.map_append, hBSlen, List.map_cons, List.map_nil]
        rw [finish_length _ (eqLen_fold cfg lastPage Builders.empty
          eqLen_empty), hblen]
    · -- the last page fills the buffer exactly: in-loop flush, empty rest
      have h1000 : (lastPage.filter (acceptedBy cfg)).length = 1000 := by
        omega
      have hstA : processPage cfg
          ⟨Builders.empty, fulls.map
            (fun p => (p.filter (acceptedBy cfg)).map (toRecord cfg))⟩
          lastPage =
          ⟨Builders.empty,
           fulls.map
             (fun p => (p.filter (acceptedBy cfg)).map (toRecord cfg)) ++
             [(lastPage.filter (acceptedBy cfg)).map (toRecord cfg)]⟩ := by
        rw [processPage_empty_builders, if_pos (by omega)]
      simp only [runPipeline, hfold, hstA]
      rw [if_neg (by simp [Builders.empty])]
      rw [List.map_append, hBSlen, List.map_cons, List.map_nil,
        List.length_map, if_neg (by omega), h1000]
  refine ⟨hE, ?_, ?_, ?_⟩
  · -- the number of batches is ceil(N / 1000)
    have hc := congrArg List.length hE
    simp only [List.length_map, List.length_append,
      List.length_replicate] at hc
    rcases Nat.eq_zero_or_pos (lastPage.filter (acceptedBy cfg)).length
      with h0 | hpos
    · rw [if_pos h0] at hc
      simp only [List.length_nil] at hc
      omega
    · rw [if_neg (by omega)] at hc
      simp only [List.length_cons, List.length_nil] at hc
      omega
  · -- all batches before the last hold exactly 1000 records
    intro l hl'
    have hmem : l.length ∈
        ((runPipeline cfg (fulls ++ [lastPage])).map List.length).dropLast := by
      rw [← List.map_dropLast]
      exact List.mem_map_of_mem List.length hl'
    rw [hE] at hmem
    rcases Nat.eq_zero_or_pos (lastPage.filter (acceptedBy cfg)).length
      with h0 | hpos
    · rw [if_pos h0, List.append_nil] at hmem
      exact List.eq_of_mem_replicate
        ((List.dropLast_sublist _).subset hmem)
    · rw [if_neg (by omega), List.dropLast_concat] at hmem
      exact List.eq_of_mem_replicate hmem
  · -- when N mod 1000 ≠ 0 the final batch holds N mod 1000 records
    intro hne
    have hmpos : 0 < (lastPage.filter (acceptedBy cfg)).length := by omega
    have hmlt : (lastPage.filter (acceptedBy cfg)).length < 1000 := by omega
    have hgl : ((runPipeline cfg (fulls ++ [lastPage])).map
        List.length).getLast? =
        some (lastPage.filter (acceptedBy cfg)).length := by
      rw [hE, if_neg (by omega)]
      exact List.getLast?_concat _
    rw [List.getLast?_map] at hgl
    rw [hgl]
    congr 1
    omega

/-- Witness for C1 amended: zero full pages and a last page of 2 accepted
objects yield one batch of 2 records. -/
theorem batching_amended_witness :
    (runPipeline ⟨[], none, []⟩
        [[⟨none, none, none⟩, ⟨none, none, none⟩]]).map List.length =
      [2] := by
  have h := (batching_amended ⟨[], none, []⟩ []
      [⟨none, none, none⟩, ⟨none, none, none⟩]
      (fun p hp => absurd hp (List.not_mem_nil p)) (by decide)).1
  rw [List.nil_append] at h
  rw [h]
  decide

/-! ## Retry properties -/

theorem attemptsFrom_le (E A : Type) (g : Nat → Except E A) :
    ∀ n i, attemptsFrom g i n ≤ n + 1 := by
  intro n
  induction n with
  | zero =>
    intro i
    unfold attemptsFrom
    omega
  | succ n ih =>
    intro i
    unfold attemptsFrom
    cases g i with
    | ok a =>
      show (1 : Nat) ≤ n + 1 + 1
      omega
    | error e =>
      show 1 + attemptsFrom g (i + 1) n ≤ n + 1 + 1
      have := ih (i + 1)
      omega

/-- C2 counterexample: a call that fails on each of its first three
attempts is attempted a fourth time — `Retry::spawn` makes one initial
attempt plus one retry per element of the `take(3)` strategy — so the run
succeeds (with 4 attempts made) instead of terminating fatally after 3. -/
theorem retry_counterexample :
    retrySpawn 3 (fun i => if i < 3 then Except.error 0
        else Except.ok 0) = Except.ok (0 : Nat) ∧
    attemptsUsed 3 (fun i => if i < 3 then Except.error (0 : Nat)
        else Except.ok (0 : Nat)) = 4 :=
  ⟨rfl, rfl⟩

/-- C2 amended: every retried call (listing-page fetch or upload put) is
attempted at most **4** times — one initial attempt plus up to 3 retries.
A call that fails twice and succeeds on the third attempt succeeds; a call
that fails on all 4 attempts is fatal with the last error; a run whose
listing fails fatally never invokes the upload at all (so no manifest is
put), and an upload failing all 4 attempts fails the run after exactly 4
put attempts. -/
theorem retry_amended (E A : Type) (f : Nat → Except E A) (cfg : Config)
    (atts : List (Nat → Except E (List S3Object)))
    (upload : Nat → Except E Unit) :
    attemptsUsed 3 f ≤ 4 ∧
    (∀ e0 e1 a, f 0 = .error e0 → f 1 = .error e1 → f 2 = .ok a →
       retrySpawn 3 f = .ok a) ∧
    (∀ es : Nat → E, (∀ i, i ≤ 3 → f i = .error (es i)) →
       retrySpawn 3 f = .error (es 3) ∧ attemptsUsed 3 f = 4) ∧
    (∀ e, listAll atts = .error e →
       generateManifestRun cfg atts upload = (.error e, 0)) ∧
    (∀ pages (es : Nat → E), listAll atts = .ok pages →
       (∀ i, i ≤ 3 → upload i = .error (es i)) →
       generateManifestRun cfg atts upload = (.error (es 3), 4)) := by
  have hallfail : ∀ (B : Type) (g : Nat → Except E B) (es : Nat → E),
      (∀ i, i ≤ 3 → g i = .error (es i)) →
      retrySpawn 3 g = .error (es 3) ∧ attemptsUsed 3 g = 4 := by
    intro B g es h
    constructor
    · simp [retrySpawn, retryFrom, h 0 (by omega), h 1 (by omega),
        h 2 (by omega), h 3 (by omega)]
    · simp [attemptsUsed, attemptsFrom, h 0 (by omega), h 1 (by omega),
        h 2 (by omega), h 3 (by omega)]
  refine ⟨attemptsFrom_le E A f 3 0, ?_, hallfail A f, ?_, ?_⟩
  · intro e0 e1 a h0 h1 h2
    simp [retrySpawn, retryFrom, h0, h1, h2]
  · intro e h
    simp [generateManifestRun, h]
  · intro pages es hok hfail
    obtain ⟨herr, hcount⟩ := hallfail Unit upload es hfail
    simp [generateManifestRun, hok, herr, hcount]

/-- Witness for C2 amended: a call failing twice then succeeding on the
third attempt yields success. -/
theorem retry_amended_witness :
    retrySpawn 3 (fun i => if i = 0 ∨ i = 1 then Except.error 0
      else Except.ok (5 : Nat)) = Except.ok 5 :=
  (retry_amended Nat Nat
      (fun i => if i = 0 ∨ i = 1 then Except.error 0
        else Except.ok (5 : Nat))
      ⟨[], none, []⟩ [] (fun _ => Except.ok ())).2.1 0 0 5 rfl rfl rfl

/-! ## Temporary-file lifetime -/

/-- C8: in remote-output mode, on every exit path in which the temporary
file is created — upload success, or failure at any later step — the run's
event trace ends with the temp file being dropped (deleted) before the
process ends. -/
theorem temp_file_deleted (failAt : Option RemoteStep)
    (h : Ev.createTemp ∈ (remoteModeTrace failAt).1) :
    Ev.dropTemp ∈ (remoteModeTrace failAt).1 ∧
    (remoteModeTrace failAt).1.getLast? = some Ev.dropTemp := by
  revert h
  cases failAt with
  | none => decide
  | some s => cases s <;> decide

/-- Witness for C8 at the failed-upload exit path. -/
theorem temp_file_deleted_witness :
    Ev.dropTemp ∈ (remoteModeTrace (some RemoteStep.uploadPut)).1 :=
  (temp_file_deleted (some RemoteStep.uploadPut) (by decide)).1

end S3Manifest
